import Mathlib

/-!
Shallow embedding of the function-boundary locator in `src/codeParser.ts`
(class `CodeParser`).  Text is modelled as `List Char`; a document is the
raw text, split into lines exactly as `text.split` on the newline
character does in JavaScript.  Each regular expression of the source is
hand-compiled into a deterministic matcher with the same backtracking
behaviour on its pattern.
-/

namespace CodeParser

/-- The opening curly brace character (written by code to keep brace
characters out of string literals). -/
def lbrace : Char := Char.ofNat 123

/-- The closing curly brace character. -/
def rbrace : Char := Char.ofNat 125

/-- The apostrophe / single-quote character. -/
def squote : Char := Char.ofNat 39

/-- The newline character. -/
def nl : Char := Char.ofNat 10

/-- Whitespace as JavaScript `\s` sees it on ASCII text (space, tab,
newline, carriage return, vertical tab, form feed). -/
def isWS (c : Char) : Bool :=
  c = ' ' || c = Char.ofNat 9 || c = nl || c = Char.ofNat 13 ||
  c = Char.ofNat 11 || c = Char.ofNat 12

/-- `[A-Za-z0-9_$]`, the JS identifier class of the source's patterns. -/
def isJsId (c : Char) : Bool :=
  (('A' ≤ c && c ≤ 'Z') || ('a' ≤ c && c ≤ 'z') || ('0' ≤ c && c ≤ '9') ||
   c = '_' || c = '$')

/-- `[A-Za-z0-9_]`, the identifier class used by the Python, C-family and
generic patterns. -/
def isWordId (c : Char) : Bool :=
  (('A' ≤ c && c ≤ 'Z') || ('a' ≤ c && c ≤ 'z') || ('0' ≤ c && c ≤ '9') ||
   c = '_')

/-- `[A-Za-z0-9_<>[\]]`, the C-family return-type token class. -/
def isCType (c : Char) : Bool :=
  isWordId c || c = '<' || c = '>' || c = '[' || c = ']'

/-- `[A-Za-z0-9_,\s]`, the class after `throws` in the C-family pattern. -/
def isThrowsChar (c : Char) : Bool :=
  isWordId c || c = ',' || isWS c

/-- JavaScript `String.prototype.trim` on a line. -/
def trim (l : List Char) : List Char :=
  (l.dropWhile isWS).reverse.dropWhile isWS |>.reverse

/-- JavaScript `line.search` of a non-whitespace character: index of the
first non-whitespace character, `-1` when the line is all whitespace. -/
def searchNonWSAux : Nat → List Char → Int
  | _, [] => -1
  | i, c :: rest => if isWS c then searchNonWSAux (i + 1) rest else (i : Int)

/-- `line.search(non-whitespace)` starting at column 0. -/
def searchNonWS (l : List Char) : Int := searchNonWSAux 0 l

/-- JavaScript `text.split` on the newline character:
`"a\nb\n"` becomes `["a", "b", ""]`. -/
def splitNl : List Char → List (List Char)
  | [] => [[]]
  | c :: rest =>
    if c = nl then [] :: splitNl rest
    else
      match splitNl rest with
      | l :: ls => (c :: l) :: ls
      | [] => [[c]]

/-- Join lines, terminating every line with a newline (the shape produced
by the source's repeated `body += line` plus a newline). -/
def joinNl : List (List Char) → List Char
  | [] => []
  | l :: ls => l ++ nl :: joinNl ls

/-- Join lines with a newline separator and no trailing newline
(JavaScript `Array.prototype.join`). -/
def joinSep : List (List Char) → List Char
  | [] => []
  | [l] => l
  | l :: ls => l ++ nl :: joinSep ls

/-- The text of lines `a..b` inclusive, each newline-terminated. -/
def sliceJoin (lines : List (List Char)) (a b : Nat) : List Char :=
  joinNl ((lines.drop a).take (b + 1 - a))

/-! ### Matcher building blocks -/

/-- Consume a literal prefix, returning the rest of the input. -/
def lit : List Char → List Char → Option (List Char)
  | [], s => some s
  | _, [] => none
  | p :: ps, c :: cs => if p = c then lit ps cs else none

/-- Consume one given character. -/
def expectCh (c : Char) : List Char → Option (List Char)
  | [] => none
  | x :: xs => if x = c then some xs else none

/-- Greedily consume at least one character satisfying `p`
(a `class+` regex atom followed by something outside the class). -/
def take1While (p : Char → Bool) : List Char → Option (List Char × List Char)
  | [] => none
  | c :: cs =>
    if p c then
      let (t, r) := (c :: cs).span p
      some (t, r)
    else none

/-- Try a matcher at every start offset, leftmost first — the search
behaviour of `RegExp.prototype.exec` on an unanchored pattern. -/
def searchAt (f : List Char → Option α) : List Char → Option α
  | [] => f []
  | c :: rest =>
    match f (c :: rest) with
    | some a => some a
    | none => searchAt f rest

/-! ### The JS/TS signature patterns (source lines 81–93), in order -/

/-- Pattern `function\s+(id)\s*\(([^)]*)\)\s*` + open brace, tried at one
start offset; returns the captured name. -/
def p1At (s : List Char) : Option (List Char) := do
  let s ← lit "function".toList s
  let (_, s) ← take1While isWS s
  let (name, s) ← take1While isJsId s
  let s := s.dropWhile isWS
  let s ← expectCh '(' s
  let s := s.dropWhile (fun c => c ≠ ')')
  let s ← expectCh ')' s
  let s := s.dropWhile isWS
  let _ ← expectCh lbrace s
  return name

/-- Pattern `(const|let|var)\s+(id)\s*=\s*(async\s*)?\(([^)]*)\)\s*=>\s*`
+ open brace, at one start offset. -/
def p2At (s : List Char) : Option (List Char) := do
  let s ← (lit "const".toList s) <|> (lit "let".toList s) <|> (lit "var".toList s)
  let (_, s) ← take1While isWS s
  let (name, s) ← take1While isJsId s
  let s := s.dropWhile isWS
  let s ← expectCh '=' s
  let s := s.dropWhile isWS
  let s ← (do
      let s2 ← lit "async".toList s
      let s2 := s2.dropWhile isWS
      expectCh '(' s2) <|> expectCh '(' s
  let s := s.dropWhile (fun c => c ≠ ')')
  let s ← expectCh ')' s
  let s := s.dropWhile isWS
  let s ← lit "=>".toList s
  let s := s.dropWhile isWS
  let _ ← expectCh lbrace s
  return name

/-- Pattern `(id)\s*\(([^)]*)\)\s*` + open brace, at one start offset. -/
def p3At (s : List Char) : Option (List Char) := do
  let (name, s) ← take1While isJsId s
  let s := s.dropWhile isWS
  let s ← expectCh '(' s
  let s := s.dropWhile (fun c => c ≠ ')')
  let s ← expectCh ')' s
  let s := s.dropWhile isWS
  let _ ← expectCh lbrace s
  return name

/-- Tail of pattern 4 after the optional `public/private/protected`,
`static` and `async` keywords: `\s*(id)\s*\(([^)]*)\)\s*(:\s*[^...]+)?\s*`
+ open brace.  The optional type-annotation group, under greedy matching,
accepts exactly a nonempty run of non-brace characters between the colon
and the opening brace. -/
def p4Core (s : List Char) : Option (List Char) := do
  let s := s.dropWhile isWS
  let (name, s) ← take1While isJsId s
  let s := s.dropWhile isWS
  let s ← expectCh '(' s
  let s := s.dropWhile (fun c => c ≠ ')')
  let s ← expectCh ')' s
  let s := s.dropWhile isWS
  match (do
      let s2 ← expectCh ':' s
      let (_, s2) ← take1While (fun c => c ≠ lbrace) s2
      expectCh lbrace s2) with
  | some _ => return name
  | none => do
    let _ ← expectCh lbrace s
    return name

/-- Pattern 4 after the optional access modifier: optional `static`. -/
def p4AfterStatic (s : List Char) : Option (List Char) :=
  let s := s.dropWhile isWS
  ((lit "async".toList s).bind p4Core) <|> p4Core s

/-- Pattern 4 after the optional access modifier keyword. -/
def p4AfterAccess (s : List Char) : Option (List Char) :=
  let s := s.dropWhile isWS
  ((lit "static".toList s).bind p4AfterStatic) <|> p4AfterStatic s

/-- Pattern `(public|private|protected)?\s*(static)?\s*(async)?\s*…`
(the modifier-qualified class-method pattern), at one start offset. -/
def p4At (s : List Char) : Option (List Char) :=
  ((lit "public".toList s).bind p4AfterAccess) <|>
  ((lit "private".toList s).bind p4AfterAccess) <|>
  ((lit "protected".toList s).bind p4AfterAccess) <|>
  p4AfterAccess s

/-- `findJavaScriptFunction`'s per-line test: the four patterns tried in
source order, first match (and its captured name) wins. -/
def jsMatchLine (line : List Char) : Option (List Char) :=
  (searchAt p1At line) <|> (searchAt p2At line) <|>
  (searchAt p3At line) <|> (searchAt p4At line)

/-! ### The Python, C-family and generic patterns -/

/-- Pattern `^\s*def\s+(id)\s*\(([^)]*)\)\s*(->.*?)?:` anchored at the
start of the line. -/
def pyMatchLine (line : List Char) : Option (List Char) := do
  let s := line.dropWhile isWS
  let s ← lit "def".toList s
  let (_, s) ← take1While isWS s
  let (name, s) ← take1While isWordId s
  let s := s.dropWhile isWS
  let s ← expectCh '(' s
  let s := s.dropWhile (fun c => c ≠ ')')
  let s ← expectCh ')' s
  let s := s.dropWhile isWS
  match (do
      let s2 ← lit "->".toList s
      let s2 := s2.dropWhile (fun c => c ≠ ':')
      expectCh ':' s2) with
  | some _ => return name
  | none => do
    let _ ← expectCh ':' s
    return name

/-- Tail of the C-family pattern: `\s*(type)\s+(id)\s*\(([^)]*)\)\s*`
then an optional `throws` clause then optional whitespace and an opening
brace.  Under greedy matching the `throws` group accepts `throws`
followed by a run of at least two word/comma/whitespace characters whose
first character is whitespace, ending right before the brace. -/
def cCore (s : List Char) : Option (List Char) := do
  let s := s.dropWhile isWS
  let (_, s) ← take1While isCType s
  let (_, s) ← take1While isWS s
  let (name, s) ← take1While isWordId s
  let s := s.dropWhile isWS
  let s ← expectCh '(' s
  let s := s.dropWhile (fun c => c ≠ ')')
  let s ← expectCh ')' s
  let s := s.dropWhile isWS
  match (do
      let s2 ← lit "throws".toList s
      let (run, s2) ← take1While isThrowsChar s2
      match run with
      | c1 :: _ :: _ => if isWS c1 then expectCh lbrace s2 else none
      | _ => none) with
  | some _ => return name
  | none => do
    let _ ← expectCh lbrace s
    return name

/-- C-family pattern after the optional access modifier. -/
def cAfterAccess (s : List Char) : Option (List Char) :=
  let s := s.dropWhile isWS
  ((lit "static".toList s).bind cCore) <|> cCore s

/-- The C-family signature pattern (source line 230), anchored. -/
def cMatchLine (line : List Char) : Option (List Char) :=
  let s := line.dropWhile isWS
  ((lit "public".toList s).bind cAfterAccess) <|>
  ((lit "private".toList s).bind cAfterAccess) <|>
  ((lit "protected".toList s).bind cAfterAccess) <|>
  cAfterAccess s

/-- Pattern `(id)\s*\(([^)]*)\)` at one start offset (generic fallback). -/
def genAt (s : List Char) : Option (List Char) := do
  let (name, s) ← take1While isWordId s
  let s := s.dropWhile isWS
  let s ← expectCh '(' s
  let s := s.dropWhile (fun c => c ≠ ')')
  let _ ← expectCh ')' s
  return name

/-- The generic fallback per-line test (source line 280). -/
def genMatchLine (line : List Char) : Option (List Char) :=
  searchAt genAt line

/-! ### The upward scan over the lookback window -/

/-- The upward scan of a matcher over the lookback window: test line `i`,
then `i - 1`, …, for `steps` further lines, returning the first matching
line index with the matcher's output.  Called with
`steps := min cursor w`, this is the source's
`for (i = cursorLine; i >= max(0, cursorLine - w); i--)` loop. -/
def scanUp (f : List Char → Option α) (lines : List (List Char)) :
    Nat → Nat → Option (Nat × α)
  | i, 0 =>
    match f (lines.getD i []) with
    | some a => some (i, a)
    | none => none
  | 0, _ + 1 =>
    match f (lines.getD 0 []) with
    | some a => some (0, a)
    | none => none
  | i + 1, steps + 1 =>
    match f (lines.getD (i + 1) []) with
    | some a => some (i + 1, a)
    | none => scanUp f lines i steps

/-! ### `findFunctionBody` (source lines 316–375) -/

/-- The result record of `findFunctionBody`. -/
structure BodyResult where
  body : List Char
  startLine : Nat
  endLine : Nat
  deriving Repr, DecidableEq

/-- Number of opening braces on a line (the source's first-line count,
which ignores closing braces). -/
def countOpens (l : List Char) : Nat := l.countP (fun c => c = lbrace)

/-- One line of the depth-counting loop: increment on every opening
brace, decrement on every closing brace, and stop scanning the line the
instant the counter reaches zero (source lines 361–371).  Called with a
positive counter. -/
def scanBraces : Nat → List Char → Nat
  | n, [] => n
  | n, c :: cs =>
    if c = lbrace then scanBraces (n + 1) cs
    else if c = rbrace then
      if n ≤ 1 then 0 else scanBraces (n - 1) cs
    else scanBraces n cs

/-- The result of the brace-search phase: appended text, new end line,
brace count of the line found (zero when the buffer ran out), and the
lines not yet consumed. -/
structure BraceSearch where
  text : List Char
  endLine : Nat
  count : Nat
  rem : List (List Char)
  deriving Repr, DecidableEq

/-- The brace-search phase (source lines 336–352): when the header line
has no opening brace, append following lines until one containing an
opening brace is found.  `prevEnd` is the index of the line before
`ls`. -/
def bracePhase (prevEnd : Nat) : List (List Char) → BraceSearch
  | [] => ⟨[], prevEnd, 0, []⟩
  | l :: rest =>
    if l.contains lbrace then ⟨l ++ [nl], prevEnd + 1, countOpens l, rest⟩
    else
      let p := bracePhase (prevEnd + 1) rest
      ⟨l ++ nl :: p.text, p.endLine, p.count, p.rem⟩

/-- The closing-scan phase (source lines 355–372): while the counter is
positive, append the next line, advance the end line and update the
counter; stop at end of buffer or when the counter reaches zero.
`prevEnd` is the index of the line before `ls`. -/
def closePhase : Nat → Nat → List (List Char) → List Char × Nat
  | _, prevEnd, [] => ([], prevEnd)
  | 0, prevEnd, _ :: _ => ([], prevEnd)
  | count + 1, prevEnd, l :: rest =>
    let p := closePhase (scanBraces (count + 1) l) (prevEnd + 1) rest
    (l ++ nl :: p.1, p.2)

/-- `CodeParser.findFunctionBody`: the brace body collector. -/
def findFunctionBody (lines : List (List Char)) (startLine : Nat) :
    BodyResult :=
  let header := lines.getD startLine []
  let c0 := countOpens header
  if c0 = 0 then
    let p := bracePhase startLine (lines.drop (startLine + 1))
    let q := closePhase p.count p.endLine p.rem
    ⟨header ++ nl :: (p.text ++ q.1), startLine, q.2⟩
  else
    let q := closePhase c0 startLine (lines.drop (startLine + 1))
    ⟨header ++ nl :: q.1, startLine, q.2⟩

/-! ### Documentation finders (source lines 383–470) -/

/-- Skip blank lines upward; the argument is one past the index to
inspect first, so `skipBlanksUp lines fs` models
`startLine = fs - 1; while (startLine >= 0 && blank) startLine--` and
returns the index reached, or `none` when it ran below index 0. -/
def skipBlanksUp (lines : List (List Char)) : Nat → Option Nat
  | 0 => none
  | i + 1 =>
    if trim (lines.getD i []) = [] then skipBlanksUp lines i else some i

/-- The upward collection loop of `findExistingDocumentation`: prepend
line `i` (the argument is `i + 1`), return the joined lines once a line
whose trimmed text starts with the doc-comment opener is reached, `none`
when the scan runs below index 0. -/
def collectDocAux (lines : List (List Char)) :
    Nat → List (List Char) → Option (List Char)
  | 0, _ => none
  | i + 1, acc =>
    let l := lines.getD i []
    let acc' := l :: acc
    if (lit ("/**".toList) (trim l)).isSome then some (joinSep acc')
    else collectDocAux lines i acc'

/-- Does `l` end with the literal `p`? (JS `String.prototype.endsWith`.) -/
def endsWith (l p : List Char) : Bool :=
  (lit p.reverse l.reverse).isSome

/-- `CodeParser.findExistingDocumentation`: the brace-style doc-block
finder above `functionStartLine`. -/
def findExistingDocumentation (lines : List (List Char))
    (functionStartLine : Nat) : Option (List Char) :=
  match skipBlanksUp lines functionStartLine with
  | none => none
  | some s =>
    if endsWith (trim (lines.getD s [])) ("*/".toList) then
      collectDocAux lines (s + 1) []
    else none

/-- The double-quote triple delimiter. -/
def tq : List Char := ['"', '"', '"']

/-- The single-quote triple delimiter. -/
def sq : List Char := [squote, squote, squote]

/-- The docstring collection loop (source lines 454–462): take lines
until one whose trimmed text ends with the delimiter, inclusive; if the
buffer runs out, everything was taken. -/
def collectUntilClose (q : List Char) : List (List Char) → List (List Char)
  | [] => []
  | l :: ls =>
    if endsWith (trim l) q then [l] else l :: collectUntilClose q ls

/-- `CodeParser.findPythonDocstring`: inspects only the line after the
header; single-line exactly when that trimmed line ends with either
triple-quote delimiter and has length greater than 3. -/
def findPythonDocstring (lines : List (List Char))
    (functionStartLine : Nat) : Option (List Char) :=
  match lines.drop (functionStartLine + 1) with
  | [] => none
  | next :: rest =>
    let nt := trim next
    if (lit tq nt).isSome || (lit sq nt).isSome then
      if (endsWith nt tq && decide (3 < nt.length)) ||
         (endsWith nt sq && decide (3 < nt.length)) then
        some next
      else
        let q := if (lit tq nt).isSome then tq else sq
        some (joinSep (next :: collectUntilClose q rest))
    else none

/-! ### The indentation body collector (source lines 165–189) -/

/-- The Python body loop: blank lines are appended and never stop the
scan; a non-blank line whose first non-whitespace column is at most
`defIndent` stops the scan and is excluded; returns the appended text
and the final end line.  `prevEnd` is the index of the line before
`ls`. -/
def pyBody (defIndent : Int) : Nat → List (List Char) → List Char × Nat
  | prevEnd, [] => ([], prevEnd)
  | prevEnd, l :: rest =>
    if trim l = [] then
      let p := pyBody defIndent (prevEnd + 1) rest
      (l ++ nl :: p.1, p.2)
    else if searchNonWS l ≤ defIndent && searchNonWS l ≠ -1 then
      ([], prevEnd)
    else
      let p := pyBody defIndent (prevEnd + 1) rest
      (l ++ nl :: p.1, p.2)

/-! ### The locator record and the four language paths -/

/-- The `FunctionInfo` record returned by the locator. -/
structure FunctionInfo where
  name : List Char
  signature : List Char
  body : List Char
  startLine : Nat
  endLine : Nat
  language : String
  existingDocumentation : Option (List Char)
  deriving Repr, DecidableEq

/-- `CodeParser.findJavaScriptFunction`. -/
def findJavaScriptFunction (lines : List (List Char)) (cursor : Nat)
    (language : String) : Option FunctionInfo :=
  match scanUp jsMatchLine lines cursor (min cursor 10) with
  | none => none
  | some (i, name) =>
    let r := findFunctionBody lines i
    some { name := name
           signature := trim (lines.getD i [])
           body := r.body
           startLine := r.startLine
           endLine := r.endLine
           language := language
           existingDocumentation :=
             findExistingDocumentation lines r.startLine }

/-- `CodeParser.findPythonFunction`. -/
def findPythonFunction (lines : List (List Char)) (cursor : Nat) :
    Option FunctionInfo :=
  match scanUp pyMatchLine lines cursor (min cursor 10) with
  | none => none
  | some (i, name) =>
    let lineText := lines.getD i []
    let p := pyBody (searchNonWS lineText) i (lines.drop (i + 1))
    some { name := name
           signature := trim lineText
           body := p.1
           startLine := i
           endLine := p.2
           language := "python"
           existingDocumentation := findPythonDocstring lines i }

/-- `CodeParser.findCStyleFunction`. -/
def findCStyleFunction (lines : List (List Char)) (cursor : Nat)
    (language : String) : Option FunctionInfo :=
  match scanUp cMatchLine lines cursor (min cursor 10) with
  | none => none
  | some (i, name) =>
    let r := findFunctionBody lines i
    some { name := name
           signature := trim (lines.getD i [])
           body := r.body
           startLine := i
           endLine := r.endLine
           language := language
           existingDocumentation :=
             findExistingDocumentation lines r.startLine }

/-- `CodeParser.findGenericFunction`. -/
def findGenericFunction (lines : List (List Char)) (cursor : Nat)
    (language : String) : Option FunctionInfo :=
  match scanUp genMatchLine lines cursor (min cursor 5) with
  | none => none
  | some (i, name) =>
    let r := findFunctionBody lines i
    some { name := name
           signature := trim (lines.getD i [])
           body := r.body
           startLine := r.startLine
           endLine := r.endLine
           language := language
           existingDocumentation :=
             findExistingDocumentation lines r.startLine }

/-- The four language tags routed to the JS/TS matcher. -/
def jsLangs : List String :=
  ["javascript", "typescript", "typescriptreact", "javascriptreact"]

/-- The four language tags routed to the C-family matcher. -/
def cLangs : List String := ["java", "csharp", "cpp", "c"]

/-- `CodeParser.findFunctionAtPosition`: split the buffer into lines and
dispatch on the language tag. -/
def findFunctionAtPosition (text : List Char) (cursorLine : Nat)
    (language : String) : Option FunctionInfo :=
  let lines := splitNl text
  if language ∈ jsLangs then findJavaScriptFunction lines cursorLine language
  else if language = "python" then findPythonFunction lines cursorLine
  else if language ∈ cLangs then findCStyleFunction lines cursorLine language
  else findGenericFunction lines cursorLine language

/-! ### Specification-side characterizations

These definitions restate, independently of the collector recursions,
where a scan stops: the first line on which the running brace depth
returns to zero, the first line containing an opening brace, the first
line at which the Python indentation walk terminates, and so on.  The
lemmas below prove that the embedded collectors stop exactly there. -/

/-- The first line index at or after `idx` on which the running brace
depth (starting at `count` just before line `idx`) returns to zero;
`none` when it never does. -/
def firstZeroLine (count idx : Nat) : List (List Char) → Option Nat
  | [] => none
  | l :: rest =>
    let c' := scanBraces count l
    if c' = 0 then some idx else firstZeroLine c' (idx + 1) rest

/-- The first line index at or after `idx` containing an opening brace,
paired with its opening-brace count; `none` when there is none. -/
def firstBraceLine (idx : Nat) : List (List Char) → Option (Nat × Nat)
  | [] => none
  | l :: rest =>
    if l.contains lbrace then some (idx, countOpens l)
    else firstBraceLine (idx + 1) rest

/-- The line on which the brace body collector started at header `h`
observes closure, combining the three phases of `findFunctionBody`;
`none` when closure is never observed before the end of the buffer. -/
def braceCloseLine (lines : List (List Char)) (h : Nat) : Option Nat :=
  let c0 := countOpens (lines.getD h [])
  if c0 = 0 then
    match firstBraceLine (h + 1) (lines.drop (h + 1)) with
    | none => none
    | some (k, c) => firstZeroLine c (k + 1) (lines.drop (k + 1))
  else firstZeroLine c0 (h + 1) (lines.drop (h + 1))

/-- The end line the brace body collector reports: the closure line, or
the last buffer line when closure is never observed. -/
def closeEnd (lines : List (List Char)) (h : Nat) : Nat :=
  (braceCloseLine lines h).getD (lines.length - 1)

/-- The first line index at or after `idx` that terminates the Python
indentation walk for reference indentation `d`: non-blank with first
non-whitespace column at most `d`.  One past the last line when the walk
never terminates. -/
def pyStop (d : Int) (idx : Nat) : List (List Char) → Nat
  | [] => idx
  | l :: rest =>
    if trim l = [] then pyStop d (idx + 1) rest
    else if searchNonWS l ≤ d then idx
    else pyStop d (idx + 1) rest

/-- The position (1-based within `ls`) of the first line whose trimmed
text ends with the delimiter `q`; `none` when no line closes. -/
def firstCloseAt (q : List Char) (idx : Nat) : List (List Char) → Option Nat
  | [] => none
  | l :: ls =>
    if endsWith (trim l) q then some idx else firstCloseAt q (idx + 1) ls

/-- The per-language signature matcher selected by the dispatch table. -/
def matcherFor (language : String) : List Char → Option (List Char) :=
  if language ∈ jsLangs then jsMatchLine
  else if language = "python" then pyMatchLine
  else if language ∈ cLangs then cMatchLine
  else genMatchLine

/-- The lookback window size of the dispatch target: 10 lines above the
cursor for the three dedicated matchers, 5 for the generic fallback. -/
def lookback (language : String) : Nat :=
  if language ∈ jsLangs || language = "python" || language ∈ cLangs then 10
  else 5

/-! ### Lemmas about the helpers -/

theorem joinNl_append (xs ys : List (List Char)) :
    joinNl (xs ++ ys) = joinNl xs ++ joinNl ys := by
  induction xs with
  | nil => rfl
  | cons l ls ih => simp [joinNl, ih]

theorem contains_countOpens {l : List Char} (h : l.contains lbrace = true) :
    1 ≤ countOpens l := by
  have hm : lbrace ∈ l := by
    rcases List.contains_iff_exists_mem_beq.mp h with ⟨a, ha, hb⟩
    have : lbrace = a := by simpa using hb
    exact this ▸ ha
  show 0 < _
  exact List.countP_pos_iff.mpr ⟨lbrace, hm, by simp⟩

theorem scanUp_mem {f : List Char → Option α} {lines : List (List Char)}
    {i steps h : Nat} {a : α}
    (hs : scanUp f lines i steps = some (h, a)) :
    f (lines.getD h []) = some a ∧ h ≤ i := by
  induction steps generalizing i with
  | zero =>
    rw [scanUp] at hs
    cases hf : f (lines.getD i []) with
    | some b => rw [hf] at hs; cases hs; exact ⟨hf, le_refl _⟩
    | none => rw [hf] at hs; cases hs
  | succ steps ih =>
    cases i with
    | zero =>
      rw [scanUp] at hs
      cases hf : f (lines.getD 0 []) with
      | some b => rw [hf] at hs; cases hs; exact ⟨hf, le_refl _⟩
      | none => rw [hf] at hs; cases hs
    | succ i' =>
      rw [scanUp] at hs
      cases hf : f (lines.getD (i' + 1) []) with
      | some b => rw [hf] at hs; cases hs; exact ⟨hf, le_refl _⟩
      | none =>
        rw [hf] at hs
        rcases ih (i := i') hs with ⟨h1, h2⟩
        exact ⟨h1, h2.trans (Nat.le_succ _)⟩

theorem scanUp_none {f : List Char → Option α} {lines : List (List Char)}
    {i steps : Nat}
    (hf : ∀ k, k ≤ steps → f (lines.getD (i - k) []) = none) :
    scanUp f lines i steps = none := by
  induction steps generalizing i with
  | zero =>
    have h0 := hf 0 (le_refl _)
    simp only [Nat.sub_zero] at h0
    rw [scanUp, h0]
  | succ steps ih =>
    have h0 := hf 0 (Nat.zero_le _)
    simp only [Nat.sub_zero] at h0
    cases i with
    | zero => rw [scanUp, h0]
    | succ i' =>
      rw [scanUp, h0]
      exact ih fun k hk => by
        have := hf (k + 1) (Nat.succ_le_succ hk)
        simpa [Nat.succ_sub_succ] using this

theorem jsMatchLine_nil : jsMatchLine [] = none := by decide

theorem pyMatchLine_nil : pyMatchLine [] = none := by decide

theorem cMatchLine_nil : cMatchLine [] = none := by decide

theorem genMatchLine_nil : genMatchLine [] = none := by decide

/-- A matched line lies inside the buffer (no pattern matches the empty
line supplied by `getD` out of range). -/
theorem scanUp_lt_length {f : List Char → Option α} {lines : List (List Char)}
    {i steps h : Nat} {a : α}
    (hs : scanUp f lines i steps = some (h, a)) (hnil : f [] = none) :
    h < lines.length := by
  rcases scanUp_mem hs with ⟨hm, _⟩
  by_contra hge
  rw [List.getD_eq_default _ _ (Nat.le_of_not_lt hge)] at hm
  rw [hnil] at hm
  cases hm

theorem firstZeroLine_ge {count idx j : Nat} {ls : List (List Char)}
    (h : firstZeroLine count idx ls = some j) : idx ≤ j := by
  induction ls generalizing count idx with
  | nil => cases h
  | cons l rest ih =>
    unfold firstZeroLine at h
    by_cases hz : scanBraces count l = 0
    · simp only [hz, if_pos rfl] at h
      cases h; exact le_refl _
    · simp only [if_neg hz] at h
      exact (Nat.le_succ _).trans (ih h)

theorem firstBraceLine_ge {idx k c : Nat} {ls : List (List Char)}
    (h : firstBraceLine idx ls = some (k, c)) : idx ≤ k := by
  induction ls generalizing idx with
  | nil => cases h
  | cons l rest ih =>
    unfold firstBraceLine at h
    by_cases hb : l.contains lbrace
    · simp only [hb, if_pos] at h; cases h; exact le_refl _
    · simp only [hb] at h
      exact (Nat.le_succ _).trans (ih h)

theorem firstBraceLine_lt {idx k c : Nat} {ls : List (List Char)}
    (h : firstBraceLine idx ls = some (k, c)) : k < idx + ls.length := by
  induction ls generalizing idx with
  | nil => cases h
  | cons l rest ih =>
    unfold firstBraceLine at h
    by_cases hb : l.contains lbrace
    · simp only [hb, if_pos] at h; cases h; simp
    · simp only [hb] at h
      have := ih h
      simp only [List.length_cons]
      omega

theorem firstBraceLine_pos {idx k c : Nat} {ls : List (List Char)}
    (h : firstBraceLine idx ls = some (k, c)) : 1 ≤ c := by
  induction ls generalizing idx with
  | nil => cases h
  | cons l rest ih =>
    unfold firstBraceLine at h
    by_cases hb : l.contains lbrace
    · simp only [hb, if_pos] at h
      cases h
      exact contains_countOpens hb
    · simp only [hb] at h
      exact ih h

theorem closePhase_zero (prevEnd : Nat) (ls : List (List Char)) :
    closePhase 0 prevEnd ls = ([], prevEnd) := by
  cases ls <;> rfl

/-- The closing-scan phase stops exactly on the first line where the
depth counter returns to zero (or consumes the whole buffer), and its
appended text is exactly the consumed lines, newline-terminated. -/
theorem closePhase_spec {count : Nat} (hc : 1 ≤ count)
    (prevEnd : Nat) (ls : List (List Char)) :
    closePhase count prevEnd ls =
      (joinNl (ls.take
        ((firstZeroLine count (prevEnd + 1) ls).getD (prevEnd + ls.length)
          - prevEnd)),
       (firstZeroLine count (prevEnd + 1) ls).getD (prevEnd + ls.length)) := by
  induction ls generalizing count prevEnd with
  | nil =>
    cases count with
    | zero => exact absurd hc (by simp)
    | succ c => simp [closePhase, firstZeroLine, joinNl]
  | cons l rest ih =>
    cases count with
    | zero => exact absurd hc (by simp)
    | succ c =>
      rw [closePhase, firstZeroLine]
      by_cases hz : scanBraces (c + 1) l = 0
      · rw [hz, closePhase_zero]
        simp [joinNl, Nat.add_sub_cancel_left]
      · have hpos : 1 ≤ scanBraces (c + 1) l := Nat.one_le_iff_ne_zero.mpr hz
        rw [ih hpos (prevEnd + 1)]
        simp only [if_neg hz]
        have harith : ∀ E : Nat, prevEnd + 1 ≤ E →
            (l :: rest).take (E - prevEnd) = l :: rest.take (E - (prevEnd + 1)) := by
          intro E hE
          rw [show E - prevEnd = (E - (prevEnd + 1)) + 1 by omega,
            List.take_succ_cons]
        cases hfz : firstZeroLine (scanBraces (c + 1) l) (prevEnd + 1 + 1) rest with
        | some j =>
          have hj : prevEnd + 1 + 1 ≤ j := firstZeroLine_ge hfz
          simp only [Option.getD_some]
          rw [harith j (by omega)]
          simp [joinNl]
        | none =>
          simp only [Option.getD_none, List.length_cons]
          rw [show prevEnd + (rest.length + 1) = prevEnd + 1 + rest.length by omega]
          rw [harith (prevEnd + 1 + rest.length) (by omega)]
          simp [joinNl]

/-- The brace-search phase stops exactly on the first line containing an
opening brace, appending exactly the consumed lines. -/
theorem bracePhase_spec (prevEnd : Nat) (ls : List (List Char)) :
    bracePhase prevEnd ls =
      match firstBraceLine (prevEnd + 1) ls with
      | some (k, c) =>
        ⟨joinNl (ls.take (k - prevEnd)), k, c, ls.drop (k - prevEnd)⟩
      | none => ⟨joinNl ls, prevEnd + ls.length, 0, []⟩ := by
  induction ls generalizing prevEnd with
  | nil => simp [bracePhase, firstBraceLine, joinNl]
  | cons l rest ih =>
    rw [bracePhase, firstBraceLine]
    by_cases hb : l.contains lbrace
    · simp only [hb, if_pos]
      rw [show prevEnd + 1 - prevEnd = 1 by omega]
      simp [joinNl]
    · simp only [hb, Bool.false_eq_true, if_false]
      rw [ih (prevEnd + 1)]
      cases hfb : firstBraceLine (prevEnd + 1 + 1) rest with
      | some kc =>
        obtain ⟨k, c⟩ := kc
        have hk : prevEnd + 1 + 1 ≤ k := firstBraceLine_ge hfb
        have h1 : k - prevEnd = (k - (prevEnd + 1)) + 1 := by omega
        simp only [h1, List.take_succ_cons, List.drop_succ_cons]
        simp [joinNl]
      | none =>
        simp only [List.length_cons, joinNl]
        rw [show prevEnd + (rest.length + 1) = prevEnd + 1 + rest.length by omega]

/-- Master characterization of `findFunctionBody`: the returned record
starts at the header line, ends at the closure line (or the last buffer
line when closure never happens), and its body is exactly the text of
lines `startLine..endLine`, each newline-terminated. -/
theorem findFunctionBody_spec (lines : List (List Char)) (h : Nat)
    (hh : h < lines.length) :
    findFunctionBody lines h =
      ⟨sliceJoin lines h (closeEnd lines h), h, closeEnd lines h⟩ := by
  have hget : lines.getD h [] = lines[h] := by
    rw [List.getD_eq_getElem?_getD, List.getElem?_eq_getElem hh]
    rfl
  have hdrop : lines.drop h = lines.getD h [] :: lines.drop (h + 1) := by
    rw [hget]
    exact List.drop_eq_getElem_cons hh
  have hlen : (lines.drop (h + 1)).length = lines.length - (h + 1) :=
    List.length_drop _ _
  simp only [findFunctionBody, closeEnd, braceCloseLine]
  by_cases hc0 : countOpens (lines.getD h []) = 0
  · simp only [hc0, eq_self_iff_true, if_true]
    rw [bracePhase_spec]
    cases hfb : firstBraceLine (h + 1) (lines.drop (h + 1)) with
    | none =>
      dsimp only
      simp only [closePhase_zero, Option.getD_none]
      rw [show h + (lines.drop (h + 1)).length = lines.length - 1 by omega]
      simp only [sliceJoin, hdrop, List.append_nil]
      rw [show lines.length - 1 + 1 - h = (lines.drop (h + 1)).length + 1 by
            omega,
        List.take_succ_cons, List.take_length]
      simp [joinNl]
    | some kc =>
      obtain ⟨k, c⟩ := kc
      dsimp only
      have hk1 : h + 1 ≤ k := firstBraceLine_ge hfb
      have hk2 : k < h + 1 + (lines.drop (h + 1)).length :=
        firstBraceLine_lt hfb
      have hcpos : 1 ≤ c := firstBraceLine_pos hfb
      have hrem : (lines.drop (h + 1)).drop (k - h) = lines.drop (k + 1) := by
        rw [List.drop_drop]
        congr 1
        omega
      have hXlen : ((lines.drop (h + 1)).drop (k - h)).length =
          (lines.drop (h + 1)).length - (k - h) := List.length_drop _ _
      rw [closePhase_spec hcpos, ← hrem]
      cases hfz : firstZeroLine c (k + 1) ((lines.drop (h + 1)).drop (k - h)) with
      | some j =>
        have hj : k + 1 ≤ j := firstZeroLine_ge hfz
        simp only [Option.getD_some]
        rw [← joinNl_append, ← List.take_add]
        simp only [sliceJoin, hdrop]
        rw [show k - h + (j - k) = j - h by omega,
          show j + 1 - h = (j - h) + 1 by omega, List.take_succ_cons]
        simp [joinNl]
      | none =>
        simp only [Option.getD_none]
        rw [show k + ((lines.drop (h + 1)).drop (k - h)).length =
              lines.length - 1 by omega]
        rw [← joinNl_append, ← List.take_add]
        simp only [sliceJoin, hdrop]
        rw [show k - h + (lines.length - 1 - k) = lines.length - 1 - h by omega,
          show lines.length - 1 + 1 - h = (lines.length - 1 - h) + 1 by omega,
          List.take_succ_cons]
        simp [joinNl]
  · simp only [hc0, if_false]
    have hcpos : 1 ≤ countOpens (lines.getD h []) :=
      Nat.one_le_iff_ne_zero.mpr hc0
    rw [closePhase_spec hcpos]
    cases hfz : firstZeroLine (countOpens (lines.getD h [])) (h + 1)
        (lines.drop (h + 1)) with
    | some j =>
      have hj : h + 1 ≤ j := firstZeroLine_ge hfz
      simp only [Option.getD_some, sliceJoin, hdrop]
      rw [show j + 1 - h = (j - h) + 1 by omega, List.take_succ_cons]
      simp [joinNl]
    | none =>
      simp only [Option.getD_none]
      rw [show h + (lines.drop (h + 1)).length = lines.length - 1 by omega]
      simp only [sliceJoin, hdrop]
      rw [show lines.length - 1 + 1 - h = (lines.drop (h + 1)).length + 1 by
            omega,
        List.take_succ_cons, List.take_length,
        show lines.length - 1 - h = (lines.drop (h + 1)).length by omega,
        List.take_length]
      simp [joinNl]

/-! ### Lemmas about blank lines and indentation -/

theorem searchNonWSAux_eq_neg_iff (l : List Char) (i : Nat) :
    searchNonWSAux i l = -1 ↔ ∀ x ∈ l, isWS x = true := by
  induction l generalizing i with
  | nil => simp [searchNonWSAux]
  | cons c rest ih =>
    rw [searchNonWSAux]
    by_cases hc : isWS c = true
    · simp only [hc, if_true, ih]
      simp [hc]
    · simp only [hc, Bool.false_eq_true, if_false]
      constructor
      · intro habs
        have hnn : (0 : Int) ≤ (i : Int) := Int.natCast_nonneg i
        rw [habs] at hnn
        norm_num at hnn
      · intro hall
        exact absurd (hall c (List.mem_cons_self _ _)) hc

theorem trim_eq_nil_iff (l : List Char) :
    trim l = [] ↔ ∀ x ∈ l, isWS x = true := by
  unfold trim
  rw [List.reverse_eq_nil_iff, List.dropWhile_eq_nil_iff]
  constructor
  · intro hall x hx
    have hx' : x ∈ List.takeWhile isWS l ++ List.dropWhile isWS l := by
      rw [List.takeWhile_append_dropWhile]
      exact hx
    rcases List.mem_append.mp hx' with h1 | h1
    · exact List.mem_takeWhile_imp h1
    · exact hall x (List.mem_reverse.mpr h1)
  · intro hall x hx
    exact hall x ((List.dropWhile_sublist isWS).subset (List.mem_reverse.mp hx))

theorem searchNonWS_ne_neg_of_trim {l : List Char} (h : trim l ≠ []) :
    searchNonWS l ≠ -1 := by
  intro habs
  exact h ((trim_eq_nil_iff l).mpr ((searchNonWSAux_eq_neg_iff l 0).mp habs))

theorem pyStop_ge (d : Int) (idx : Nat) (ls : List (List Char)) :
    idx ≤ pyStop d idx ls := by
  induction ls generalizing idx with
  | nil => exact le_refl _
  | cons l rest ih =>
    rw [pyStop]
    by_cases hb : trim l = []
    · simp only [hb, if_true, eq_self_iff_true]
      exact (Nat.le_succ _).trans (ih _)
    · simp only [hb, if_false]
      by_cases hle : searchNonWS l ≤ d
      · simp [hle]
      · simp only [hle, if_false]
        exact (Nat.le_succ _).trans (ih _)

/-- The Python body loop consumes exactly the lines before the first
terminating line (blank lines never terminate), and reports the last
consumed line (or the header) as the end line. -/
theorem pyBody_spec (d : Int) (prevEnd : Nat) (ls : List (List Char)) :
    pyBody d prevEnd ls =
      (joinNl (ls.take (pyStop d (prevEnd + 1) ls - (prevEnd + 1))),
       max prevEnd (pyStop d (prevEnd + 1) ls - 1)) := by
  induction ls generalizing prevEnd with
  | nil => simp [pyBody, pyStop, joinNl]
  | cons l rest ih =>
    rw [pyBody, pyStop]
    by_cases hb : trim l = []
    · simp only [hb, if_true, eq_self_iff_true, ih]
      have hst : prevEnd + 1 + 1 ≤ pyStop d (prevEnd + 1 + 1) rest :=
        pyStop_ge _ _ _
      rw [show pyStop d (prevEnd + 1 + 1) rest - (prevEnd + 1) =
            (pyStop d (prevEnd + 1 + 1) rest - (prevEnd + 1 + 1)) + 1 by omega,
        List.take_succ_cons]
      simp only [Prod.mk.injEq]
      exact ⟨by simp [joinNl], by omega⟩
    · simp only [hb, if_false]
      have hnn : searchNonWS l ≠ -1 := searchNonWS_ne_neg_of_trim hb
      by_cases hle : searchNonWS l ≤ d
      · rw [if_pos (by simp [hle, hnn]), if_pos hle]
        simp [joinNl]
      · rw [if_neg (by simp [hle]), if_neg hle]
        simp only [ih]
        have hst : prevEnd + 1 + 1 ≤ pyStop d (prevEnd + 1 + 1) rest :=
          pyStop_ge _ _ _
        rw [show pyStop d (prevEnd + 1 + 1) rest - (prevEnd + 1) =
              (pyStop d (prevEnd + 1 + 1) rest - (prevEnd + 1 + 1)) + 1 by
              omega,
          List.take_succ_cons]
        simp only [Prod.mk.injEq]
        exact ⟨by simp [joinNl], by omega⟩

/-! ### Lemmas about the documentation finders -/

theorem firstCloseAt_shift (q : List Char) (ls : List (List Char))
    (idx : Nat) :
    firstCloseAt q (idx + 1) ls = (firstCloseAt q idx ls).map (· + 1) := by
  induction ls generalizing idx with
  | nil => rfl
  | cons l rest ih =>
    rw [firstCloseAt, firstCloseAt]
    by_cases hc : endsWith (trim l) q = true
    · simp [hc]
    · simp only [hc, Bool.false_eq_true, if_false]
      exact ih (idx + 1)

/-- The docstring collection loop takes exactly the lines through the
first closing line (or all lines when none closes). -/
theorem collectUntilClose_spec (q : List Char) (ls : List (List Char)) :
    collectUntilClose q ls = ls.take ((firstCloseAt q 1 ls).getD ls.length) := by
  induction ls with
  | nil => rfl
  | cons l rest ih =>
    rw [collectUntilClose, firstCloseAt]
    by_cases hc : endsWith (trim l) q = true
    · simp [hc]
    · simp only [hc, Bool.false_eq_true, if_false]
      rw [ih, show firstCloseAt q 2 rest = (firstCloseAt q 1 rest).map (· + 1)
            from firstCloseAt_shift q rest 1]
      cases firstCloseAt q 1 rest with
      | some k => simp
      | none => simp

theorem skipBlanksUp_spec (lines : List (List Char)) (e : Nat) :
    ∀ fs, e < fs → (∀ j, e < j → j < fs → trim (lines.getD j []) = []) →
      trim (lines.getD e []) ≠ [] → skipBlanksUp lines fs = some e := by
  intro fs
  induction fs with
  | zero => omega
  | succ f ih =>
    intro hef hblank hne
    rw [skipBlanksUp]
    rcases Nat.lt_succ_iff_lt_or_eq.mp hef with hlt | heq
    · rw [if_pos (hblank f hlt (Nat.lt_succ_self f))]
      exact ih hlt (fun j h1 h2 => hblank j h1 (h2.trans (Nat.lt_succ_self f)))
        hne
    · rw [heq] at hne ⊢
      rw [if_neg hne]

/-- One-line slice of a buffer. -/
theorem take_one_drop (lines : List (List Char)) (b : Nat)
    (hb : b < lines.length) :
    (lines.drop b).take 1 = [lines.getD b []] := by
  rw [List.drop_eq_getElem_cons hb, List.take_succ_cons, List.take_zero,
    List.getD_eq_getElem?_getD, List.getElem?_eq_getElem hb]
  rfl

/-- Extending a slice one line downward. -/
theorem take_drop_succ (lines : List (List Char)) (b i : Nat)
    (hbi : b ≤ i) (hi : i < lines.length) :
    (lines.drop b).take (i + 1 - b) =
      (lines.drop b).take (i - b) ++ [lines.getD i []] := by
  rw [show i + 1 - b = (i - b) + 1 by omega, List.take_succ,
    List.getElem?_drop, show b + (i - b) = i by omega,
    List.getElem?_eq_getElem hi, List.getD_eq_getElem?_getD,
    List.getElem?_eq_getElem hi]
  rfl

theorem collectDocAux_spec (lines : List (List Char)) (b : Nat)
    (hopen : (lit ("/**".toList) (trim (lines.getD b []))).isSome = true)
    (hblen : b < lines.length) :
    ∀ i, b ≤ i → i < lines.length →
      (∀ j, b < j → j ≤ i →
        (lit ("/**".toList) (trim (lines.getD j []))).isSome = false) →
      ∀ acc, collectDocAux lines (i + 1) acc =
        some (joinSep ((lines.drop b).take (i + 1 - b) ++ acc)) := by
  intro i
  induction i with
  | zero =>
    intro hbi _ _ acc
    have hb0 : b = 0 := Nat.le_zero.mp hbi
    subst hb0
    rw [collectDocAux, if_pos hopen, take_one_drop lines 0 hblen]
    rfl
  | succ i' ih =>
    intro hbi hilen hmid acc
    rcases Nat.lt_succ_iff_lt_or_eq.mp (Nat.lt_succ_of_le hbi) with hlt | heq
    · have hbi' : b ≤ i' := Nat.lt_succ_iff.mp hlt
      rw [collectDocAux,
        if_neg (by rw [hmid (i' + 1) hlt (le_refl _)]; simp)]
      rw [ih hbi' (by omega)
        (fun j h1 h2 => hmid j h1 (h2.trans (Nat.le_succ _))) _]
      rw [take_drop_succ lines b (i' + 1) (by omega) hilen]
      simp
    · rw [← heq]
      rw [collectDocAux, if_pos hopen,
        show b + 1 - b = 1 by omega, take_one_drop lines b hblen]
      rfl

theorem lit_nil_of_ne {p : List Char} (hp : p ≠ []) :
    lit p [] = none := by
  cases p with
  | nil => exact absurd rfl hp
  | cons c cs => rfl

theorem trim_ne_nil_of_endsWith {x q : List Char} (hq : q ≠ [])
    (h : endsWith (trim x) q = true) : trim x ≠ [] := by
  intro heq
  rw [heq] at h
  unfold endsWith at h
  rw [List.reverse_nil, lit_nil_of_ne (by simpa using hq)] at h
  simp at h

theorem trim_ne_nil_of_lit {x q : List Char} (hq : q ≠ [])
    (h : (lit q (trim x)).isSome = true) : trim x ≠ [] := by
  intro heq
  rw [heq, lit_nil_of_ne hq] at h
  simp at h

theorem lt_length_of_trim_ne {lines : List (List Char)} {i : Nat}
    (h : trim (lines.getD i []) ≠ []) : i < lines.length := by
  by_contra hge
  rw [List.getD_eq_default _ _ (Nat.le_of_not_lt hge)] at h
  exact h rfl

/-- C7: for a well-formed brace-style doc block on lines `b..e`
immediately above a function's start line (optionally separated by blank
lines), the doc-block finder skips the blanks upward, sees the line
ending with the block closer, collects upward to the line starting with
the block opener, and returns exactly the block's lines joined in
original top-to-bottom order. -/
theorem findExistingDocumentation_spec (lines : List (List Char))
    (fs b e : Nat) (hbe : b ≤ e) (hefs : e < fs)
    (hblank : ∀ j, e < j → j < fs → trim (lines.getD j []) = [])
    (hclose : endsWith (trim (lines.getD e [])) ("*/".toList) = true)
    (hopen : (lit ("/**".toList) (trim (lines.getD b []))).isSome = true)
    (hmid : ∀ j, b < j → j ≤ e →
      (lit ("/**".toList) (trim (lines.getD j []))).isSome = false) :
    findExistingDocumentation lines fs =
      some (joinSep ((lines.drop b).take (e + 1 - b))) := by
  have hene : trim (lines.getD e []) ≠ [] :=
    trim_ne_nil_of_endsWith (by decide) hclose
  have helen : e < lines.length := lt_length_of_trim_ne hene
  have hblen : b < lines.length :=
    lt_length_of_trim_ne (trim_ne_nil_of_lit (by decide) hopen)
  rw [findExistingDocumentation, skipBlanksUp_spec lines e fs hefs hblank hene]
  dsimp only
  rw [if_pos hclose, collectDocAux_spec lines b hopen hblen e hbe helen hmid []]
  simp

/-- Helper for the dispatch proofs: once the matcher and window of a
language are identified, an unmatched window makes the upward scan
fail. -/
theorem scanUp_window_none (text : List Char) (cursor : Nat) (lang : String)
    (hnm : ∀ i, i ≤ cursor → cursor ≤ i + lookback lang →
      matcherFor lang ((splitNl text).getD i []) = none)
    (f : List Char → Option (List Char)) (w : Nat)
    (hf : matcherFor lang = f) (hw : lookback lang = w) :
    scanUp f (splitNl text) cursor (min cursor w) = none := by
  apply scanUp_none
  intro k hk
  have h1 : cursor - k ≤ cursor := Nat.sub_le _ _
  have h2 : cursor ≤ (cursor - k) + lookback lang := by
    rw [hw]
    omega
  have := hnm (cursor - k) h1 h2
  rw [hf] at this
  exact this

/-! ### Concrete buffers used in the claim theorems -/

/-- The JS scenario buffer `function add(a, b) { / return / }`. -/
def jsAddText : List Char :=
  "function add(a, b) ".toList ++ lbrace :: nl ::
  "  return a + b;".toList ++ nl :: rbrace :: [nl]

/-- The Python scenario buffer `def add(a, b): / return a + b`. -/
def pyAddText : List Char :=
  "def add(a, b):".toList ++ nl :: "    return a + b".toList ++ [nl]

/-- The locate result on the Python scenario buffer. -/
def pyAddRecord : FunctionInfo :=
  ⟨"add".toList, "def add(a, b):".toList,
   "    return a + b".toList ++ [nl, nl], 0, 2, "python", none⟩

/-- A buffer whose cursor line is a bare `if (x)` block header. -/
def ifText : List Char :=
  "if (x) ".toList ++ lbrace :: nl :: rbrace :: [nl]

/-- A buffer of plain prose: no signature pattern matches any line. -/
def proseText : List Char :=
  "Hello world.\nJust text here.\n".toList

/-- A function whose 12-line body puts its header beyond the 10-line
lookback window of a cursor on its last body line. -/
def deepText : List Char :=
  "function f() ".toList ++ lbrace :: nl ::
  joinNl (List.replicate 12 "  a;".toList) ++ rbrace :: [nl]

/-- A small one-statement brace function. -/
def jsSimpleText : List Char :=
  "function f() ".toList ++ lbrace :: nl ::
  "x;".toList ++ nl :: rbrace :: [nl]

/-- A function whose opening brace is never closed. -/
def uncText : List Char :=
  "function f() ".toList ++ lbrace :: nl :: "  a;".toList ++ [nl]

/-- A Python function with an interior blank line and a dedented line
after it. -/
def pyBlockText : List Char :=
  "def f():\n    a = 1\n\n    b = 2\nc = 3\n".toList

/-- A three-line doc comment, a blank line, then a function header. -/
def jsDocText : List Char :=
  "/**".toList ++ nl :: " * doc".toList ++ nl :: " */".toList ++
  nl :: nl :: "function f() ".toList ++ lbrace :: [nl]

/-! ### Claim theorems -/

/-- C4: on the buffer `function add(a, b) { / return a + b; / }` with
cursor line 1 and language javascript, locate returns name `add`,
startLine 0, endLine 2, and a body equal to the three lines verbatim,
each newline-terminated (which is the whole buffer text). -/
theorem js_add_scenario :
    (findFunctionAtPosition jsAddText 1 "javascript").map
      (fun r => (r.name, r.startLine, r.endLine, r.body)) =
      some ("add".toList, 0, 2, jsAddText) := by
  decide

/-- C10: there is an input on which the JS matcher captures the
control-flow keyword `if` as the function name: a buffer whose cursor
line is `if (x)` followed by an opening brace matches the bare
method-shaped pattern and locate returns name `if`. -/
theorem js_matcher_captures_if_keyword :
    (findFunctionAtPosition ifText 0 "javascript").map
      (fun r => (r.name, r.startLine, r.endLine)) =
      some ("if".toList, 0, 1) := by
  decide

/-- C3 counterexample: on the Python scenario buffer the claimed record
`endLine = 1` is wrong; the code includes the trailing blank line
produced by the final newline, giving `endLine = 2`. -/
theorem python_add_endline_cex :
    (findFunctionAtPosition pyAddText 1 "python").map
        (fun r => (r.name, r.startLine, r.endLine)) =
      some ("add".toList, 0, 2) ∧
    ¬((findFunctionAtPosition pyAddText 1 "python").map
        (fun r => (r.name, r.startLine, r.endLine)) =
      some ("add".toList, 0, 1)) := by
  decide

/-- C3 amended: on the Python scenario buffer, locate returns name
`add`, startLine 0, and endLine 2 (the blank line after the final
newline is included by the blank-line rule of the body walk). -/
theorem python_add_scenario :
    (findFunctionAtPosition pyAddText 1 "python").map
      (fun r => (r.name, r.startLine, r.endLine)) =
      some ("add".toList, 0, 2) := by
  decide

/-- C9: when the brace depth never returns to zero before the end of the
buffer, the collector terminates normally and returns everything up to
the last buffer line, with that line as endLine. -/
theorem brace_collector_truncates_at_buffer_end (lines : List (List Char))
    (h : Nat) (hh : h < lines.length)
    (hnc : braceCloseLine lines h = none) :
    findFunctionBody lines h =
      ⟨sliceJoin lines h (lines.length - 1), h, lines.length - 1⟩ := by
  have hce : closeEnd lines h = lines.length - 1 := by
    rw [closeEnd, hnc]
    rfl
  rw [findFunctionBody_spec lines h hh, hce]

/-- C9 witness: the collector truncates the unclosed `function f()`
buffer at its last line. -/
theorem brace_collector_truncates_witness :
    findFunctionBody (splitNl uncText) 0 =
      ⟨sliceJoin (splitNl uncText) 0 ((splitNl uncText).length - 1), 0,
       (splitNl uncText).length - 1⟩ :=
  brace_collector_truncates_at_buffer_end (splitNl uncText) 0 (by decide)
    (by decide)

/-- C8: every language path scans only the fixed lookback window above
the cursor (10 lines for the JS/TS, Python and C-family matchers, 5 for
the generic fallback, the window including the cursor line and line 0
when reached); when no signature pattern matches inside the window,
locate returns the not-found result rather than failing. -/
theorem locate_window_exhausted_none (text : List Char) (cursor : Nat)
    (lang : String)
    (hnm : ∀ i, i ≤ cursor → cursor ≤ i + lookback lang →
      matcherFor lang ((splitNl text).getD i []) = none) :
    findFunctionAtPosition text cursor lang = none := by
  simp only [findFunctionAtPosition]
  by_cases hjs : lang ∈ jsLangs
  · rw [if_pos hjs]
    simp only [findJavaScriptFunction]
    rw [scanUp_window_none text cursor lang hnm jsMatchLine 10
      (by rw [matcherFor, if_pos hjs]) (by rw [lookback, if_pos (by simp [hjs])])]
  · rw [if_neg hjs]
    by_cases hpy : lang = "python"
    · rw [if_pos hpy]
      simp only [findPythonFunction]
      rw [scanUp_window_none text cursor lang hnm pyMatchLine 10
        (by rw [matcherFor, if_neg hjs, if_pos hpy])
        (by rw [lookback, if_pos (by simp [hpy])])]
    · rw [if_neg hpy]
      by_cases hcf : lang ∈ cLangs
      · rw [if_pos hcf]
        simp only [findCStyleFunction]
        rw [scanUp_window_none text cursor lang hnm cMatchLine 10
          (by rw [matcherFor, if_neg hjs, if_neg hpy, if_pos hcf])
          (by rw [lookback, if_pos (by simp [hcf])])]
      · rw [if_neg hcf]
        simp only [findGenericFunction]
        rw [scanUp_window_none text cursor lang hnm genMatchLine 5
          (by rw [matcherFor, if_neg hjs, if_neg hpy, if_neg hcf])
          (by rw [lookback, if_neg (by simp [hjs, hpy, hcf])])]

/-- C8 witness: a prose buffer matches no pattern anywhere in the
window, and locate returns the not-found result. -/
theorem locate_window_exhausted_none_witness :
    findFunctionAtPosition proseText 1 "javascript" = none :=
  locate_window_exhausted_none proseText 1 "javascript" (by
    intro i h1 _
    interval_cases i <;> decide)

/-- C7 witness: a three-line doc block separated from the function by a
blank line is returned exactly, in order. -/
theorem doc_block_round_trip_witness :
    findExistingDocumentation (splitNl jsDocText) 4 =
      some (joinSep (((splitNl jsDocText).drop 0).take (2 + 1 - 0))) :=
  findExistingDocumentation_spec (splitNl jsDocText) 4 0 2 (by decide)
    (by decide)
    (by
      intro j h1 h2
      have hj3 : j = 3 := by omega
      subst hj3
      decide)
    (by decide) (by decide)
    (by
      intro j h1 h2
      interval_cases j <;> decide)

/-- C1 counterexample: a well-formed brace function (its depth counter
closes on line 13) with the cursor strictly inside on line 12 is not
found at all, because the header lies beyond the 10-line lookback
window, contradicting the claim that locate always returns its exact
span. -/
theorem locate_misses_function_beyond_lookback :
    findFunctionAtPosition deepText 12 "javascript" = none ∧
    braceCloseLine (splitNl deepText) 0 = some 13 := by
  decide

/-- C1 amended: when the upward scan from the cursor does find the
function's header line `h` (brace-family dispatch), the header carries
an opening brace, and the running depth counter first returns to zero on
line `j`, locate returns a record spanning exactly `h..j`. -/
theorem locate_brace_span_of_header_match (text : List Char)
    (cursor h j : Nat) (lang : String) (name : List Char)
    (hm : (lang ∈ jsLangs ∧
            scanUp jsMatchLine (splitNl text) cursor (min cursor 10) =
              some (h, name)) ∨
          (lang ∈ cLangs ∧
            scanUp cMatchLine (splitNl text) cursor (min cursor 10) =
              some (h, name)))
    (hopen : countOpens ((splitNl text).getD h []) ≠ 0)
    (hj : firstZeroLine (countOpens ((splitNl text).getD h [])) (h + 1)
      ((splitNl text).drop (h + 1)) = some j) :
    (findFunctionAtPosition text cursor lang).map
      (fun r => (r.startLine, r.endLine)) = some (h, j) := by
  have hclose : braceCloseLine (splitNl text) h = some j := by
    rw [braceCloseLine, if_neg hopen, hj]
  have hce : closeEnd (splitNl text) h = j := by
    rw [closeEnd, hclose]
    rfl
  simp only [findFunctionAtPosition]
  rcases hm with ⟨hjs, hscan⟩ | ⟨hcf, hscan⟩
  · have hlen : h < (splitNl text).length :=
      scanUp_lt_length hscan jsMatchLine_nil
    rw [if_pos hjs]
    simp only [findJavaScriptFunction]
    rw [hscan]
    dsimp only
    rw [findFunctionBody_spec _ _ hlen, hce]
    rfl
  · have hlen : h < (splitNl text).length :=
      scanUp_lt_length hscan cMatchLine_nil
    have hnjs : ¬(lang ∈ jsLangs) := by
      rcases (by simpa [cLangs] using hcf :
          lang = "java" ∨ lang = "csharp" ∨ lang = "cpp" ∨ lang = "c") with
        rfl | rfl | rfl | rfl <;> decide
    have hnpy : ¬(lang = "python") := by
      rcases (by simpa [cLangs] using hcf :
          lang = "java" ∨ lang = "csharp" ∨ lang = "cpp" ∨ lang = "c") with
        rfl | rfl | rfl | rfl <;> decide
    rw [if_neg hnjs, if_neg hnpy, if_pos hcf]
    simp only [findCStyleFunction]
    rw [hscan]
    dsimp only
    rw [findFunctionBody_spec _ _ hlen, hce]
    rfl

/-- C1 witness: on a small brace function with the cursor inside, the
amended claim instantiates: locate returns span `0..2`. -/
theorem locate_brace_span_witness :
    (findFunctionAtPosition jsSimpleText 1 "javascript").map
      (fun r => (r.startLine, r.endLine)) = some (0, 2) :=
  locate_brace_span_of_header_match jsSimpleText 1 0 2 "javascript"
    "f".toList (Or.inl ⟨by decide, by decide⟩) (by decide) (by decide)

/-- C5: in the Python body collection, every blank line encountered is
included and never terminates the walk; the first non-blank line whose
first non-whitespace column is at most the def line's column stops the
walk and is excluded; the end line is the last included line (the header
when nothing was included).  `pyStop` is that first terminating line
index (one past the end when none). -/
theorem python_body_blank_and_indent_rule (lines : List (List Char))
    (cursor i : Nat) (name : List Char)
    (hscan : scanUp pyMatchLine lines cursor (min cursor 10) =
      some (i, name)) :
    (findPythonFunction lines cursor).map (fun r => (r.body, r.endLine)) =
      some (joinNl ((lines.drop (i + 1)).take
          (pyStop (searchNonWS (lines.getD i [])) (i + 1)
              (lines.drop (i + 1)) - (i + 1))),
        max i (pyStop (searchNonWS (lines.getD i [])) (i + 1)
          (lines.drop (i + 1)) - 1)) := by
  simp only [findPythonFunction]
  rw [hscan]
  dsimp only
  rw [pyBody_spec]
  rfl

/-- C5 witness: in `def f(): / a / blank / b / c-at-column-0`, the blank
line and both indented lines are in the body, the walk stops at the
dedented line, and endLine is the last indented line. -/
theorem python_body_blank_and_indent_rule_witness :
    (findPythonFunction (splitNl pyBlockText) 1).map
      (fun r => (r.body, r.endLine)) =
      some (joinNl (((splitNl pyBlockText).drop (0 + 1)).take
          (pyStop (searchNonWS ((splitNl pyBlockText).getD 0 [])) (0 + 1)
              ((splitNl pyBlockText).drop (0 + 1)) - (0 + 1))),
        max 0 (pyStop (searchNonWS ((splitNl pyBlockText).getD 0 [])) (0 + 1)
          ((splitNl pyBlockText).drop (0 + 1)) - 1)) :=
  python_body_blank_and_indent_rule (splitNl pyBlockText) 1 0 "f".toList
    (by decide)

/-- A header line, then a docstring opening with the single-quote
delimiter but closing with the double-quote delimiter on one line. -/
def mixDocLines : List (List Char) :=
  ["def f():".toList,
   "    ".toList ++ sq ++ "doc".toList ++ tq,
   "    text".toList,
   "    ".toList ++ sq]

/-- C6 counterexample: a docstring line opening with one triple-quote
style and closing with the other is treated as a single-line docstring
by the code (its ends-with check accepts either delimiter), while the
claim requires multi-line collection unless the line starts and ends
with the same delimiter. -/
theorem docstring_mixed_delimiter_cex :
    findPythonDocstring mixDocLines 0 =
      some ("    ".toList ++ sq ++ "doc".toList ++ tq) ∧
    ¬(findPythonDocstring mixDocLines 0 =
      some (joinSep ["    ".toList ++ sq ++ "doc".toList ++ tq,
        "    text".toList, "    ".toList ++ sq])) := by
  decide

/-- C6 amended: the docstring finder inspects only the line after the
header; when that trimmed line starts with a triple-quote delimiter, it
is returned alone exactly when it ends with either triple-quote
delimiter and is longer than 3 characters; otherwise the subsequent
lines through the first line whose trimmed text ends with the opening
delimiter (or all remaining lines) are collected with it. -/
theorem findPythonDocstring_delimiter_rule (lines : List (List Char))
    (h : Nat) (next : List Char) (rest : List (List Char))
    (hdrop : lines.drop (h + 1) = next :: rest)
    (hstart : (lit tq (trim next)).isSome = true ∨
      (lit sq (trim next)).isSome = true) :
    findPythonDocstring lines h =
      if (endsWith (trim next) tq || endsWith (trim next) sq)
          && decide (3 < (trim next).length) then some next
      else
        some (joinSep (next :: rest.take
          ((firstCloseAt (if (lit tq (trim next)).isSome then tq else sq)
              1 rest).getD rest.length))) := by
  rw [findPythonDocstring, hdrop]
  dsimp only
  rw [if_pos (show ((lit tq (trim next)).isSome ||
      (lit sq (trim next)).isSome) = true by
    rcases hstart with h1 | h1 <;> simp [h1])]
  have hcond : (endsWith (trim next) tq && decide (3 < (trim next).length)
      || endsWith (trim next) sq && decide (3 < (trim next).length))
      = ((endsWith (trim next) tq || endsWith (trim next) sq)
          && decide (3 < (trim next).length)) := by
    cases endsWith (trim next) tq <;> cases endsWith (trim next) sq <;> simp
  rw [hcond, collectUntilClose_spec]

/-- A Python function with a three-line docstring. -/
def pyDocText : List Char :=
  "def f():".toList ++ nl ::
  ("    ".toList ++ tq ++ "Doc.".toList) ++ nl ::
  "    more".toList ++ nl ::
  ("    ".toList ++ tq) ++ nl ::
  "    return 1".toList ++ [nl]

/-- C6 witness: a multi-line docstring is collected through its closing
line, inclusive. -/
theorem findPythonDocstring_delimiter_rule_witness :
    findPythonDocstring (splitNl pyDocText) 0 =
      some (("    ".toList ++ tq ++ "Doc.".toList) ++ nl ::
        "    more".toList ++ nl :: "    ".toList ++ tq) := by
  rw [findPythonDocstring_delimiter_rule (splitNl pyDocText) 0
    ("    ".toList ++ tq ++ "Doc.".toList)
    ["    more".toList, "    ".toList ++ tq, "    return 1".toList, []]
    (by decide) (Or.inl (by decide))]
  decide

/-- C2 counterexample: on the Python scenario buffer the returned body
omits the header line, so it is not the text of lines
startLine..endLine. -/
theorem python_body_omits_header_cex :
    (findFunctionAtPosition pyAddText 1 "python").map
        (fun r => (r.body, r.startLine, r.endLine)) =
      some ("    return a + b".toList ++ [nl, nl], 0, 2) ∧
    ¬("    return a + b".toList ++ [nl, nl] =
        sliceJoin (splitNl pyAddText) 0 2) := by
  decide

/-- C2 amended: for every successful locate, the body is the
newline-terminated text of lines startLine..endLine in the brace-family
and generic paths, but of lines startLine+1..endLine (header excluded)
in the Python path. -/
theorem locate_body_eq_slice (text : List Char) (cursor : Nat)
    (lang : String) (r : FunctionInfo)
    (hr : findFunctionAtPosition text cursor lang = some r) :
    r.body = if lang = "python"
      then sliceJoin (splitNl text) (r.startLine + 1) r.endLine
      else sliceJoin (splitNl text) r.startLine r.endLine := by
  simp only [findFunctionAtPosition] at hr
  by_cases hjs : lang ∈ jsLangs
  · rw [if_pos hjs] at hr
    have hnpy : ¬(lang = "python") := by
      rcases (by simpa [jsLangs] using hjs :
          lang = "javascript" ∨ lang = "typescript" ∨
          lang = "typescriptreact" ∨ lang = "javascriptreact") with
        rfl | rfl | rfl | rfl <;> decide
    rw [if_neg hnpy]
    simp only [findJavaScriptFunction] at hr
    cases hscan : scanUp jsMatchLine (splitNl text) cursor (min cursor 10) with
    | none =>
      rw [hscan] at hr
      cases hr
    | some ia =>
      obtain ⟨i, nm⟩ := ia
      rw [hscan] at hr
      dsimp only at hr
      have hlen : i < (splitNl text).length :=
        scanUp_lt_length hscan jsMatchLine_nil
      rw [findFunctionBody_spec _ _ hlen] at hr
      injection hr with hr2
      subst hr2
      rfl
  · rw [if_neg hjs] at hr
    by_cases hpy : lang = "python"
    · rw [if_pos hpy] at hr
      rw [if_pos hpy]
      simp only [findPythonFunction] at hr
      cases hscan : scanUp pyMatchLine (splitNl text) cursor (min cursor 10) with
      | none =>
        rw [hscan] at hr
        cases hr
      | some ia =>
        obtain ⟨i, nm⟩ := ia
        rw [hscan] at hr
        dsimp only at hr
        rw [pyBody_spec] at hr
        injection hr with hr2
        subst hr2
        dsimp only
        have hs : i + 1 ≤ pyStop (searchNonWS ((splitNl text).getD i []))
            (i + 1) ((splitNl text).drop (i + 1)) := pyStop_ge _ _ _
        rw [sliceJoin, show max i (pyStop (searchNonWS
            ((splitNl text).getD i [])) (i + 1)
            ((splitNl text).drop (i + 1)) - 1) + 1 - (i + 1) =
          pyStop (searchNonWS ((splitNl text).getD i [])) (i + 1)
            ((splitNl text).drop (i + 1)) - (i + 1) by omega]
    · rw [if_neg hpy] at hr
      rw [if_neg hpy]
      by_cases hcf : lang ∈ cLangs
      · rw [if_pos hcf] at hr
        simp only [findCStyleFunction] at hr
        cases hscan : scanUp cMatchLine (splitNl text) cursor (min cursor 10) with
        | none =>
          rw [hscan] at hr
          cases hr
        | some ia =>
          obtain ⟨i, nm⟩ := ia
          rw [hscan] at hr
          dsimp only at hr
          have hlen : i < (splitNl text).length :=
            scanUp_lt_length hscan cMatchLine_nil
          rw [findFunctionBody_spec _ _ hlen] at hr
          injection hr with hr2
          subst hr2
          rfl
      · rw [if_neg hcf] at hr
        simp only [findGenericFunction] at hr
        cases hscan : scanUp genMatchLine (splitNl text) cursor (min cursor 5) with
        | none =>
          rw [hscan] at hr
          cases hr
        | some ia =>
          obtain ⟨i, nm⟩ := ia
          rw [hscan] at hr
          dsimp only at hr
          have hlen : i < (splitNl text).length :=
            scanUp_lt_length hscan genMatchLine_nil
          rw [findFunctionBody_spec _ _ hlen] at hr
          injection hr with hr2
          subst hr2
          rfl

/-- C2 witness: the amended body relation instantiated on the Python
scenario buffer, whose body is the slice from startLine + 1. -/
theorem locate_body_eq_slice_witness :
    findFunctionAtPosition pyAddText 1 "python" = some pyAddRecord ∧
    pyAddRecord.body =
      sliceJoin (splitNl pyAddText) (pyAddRecord.startLine + 1)
        pyAddRecord.endLine := by
  have h1 : findFunctionAtPosition pyAddText 1 "python" = some pyAddRecord := by
    decide
  refine ⟨h1, ?_⟩
  have h2 := locate_body_eq_slice pyAddText 1 "python" pyAddRecord h1
  simpa using h2

end CodeParser
